import Mathlib

/-!
Shallow embedding of the pngme chunk codec (src/chunk.rs) and of the
chunk-type value object it depends on. Byte buffers are lists of `Nat`
standing for `u8` values; 32-bit machine integers are `Nat` reduced
modulo `2 ^ 32` at the points where the source converts between widths.
Fallible operations return `Option`/`Except`-like results, and the
`unwrap()` calls of the source that can abort the process are modelled
by an explicit `panics` outcome.
-/

namespace Pngme

/-- ASCII alphabetic test on a byte value: uppercase `A`..`Z` (65..90) or
lowercase `a`..`z` (97..122). Used by the chunk-type construction rule. -/
def isAsciiAlphabetic (b : Nat) : Bool :=
  (Nat.ble 65 b && Nat.ble b 90) || (Nat.ble 97 b && Nat.ble b 122)

/-- Modelled from the spec: the module `chunk_type` is declared in
`main.rs` but its source file is not in the repository. Per the spec, a
`ChunkType` is a value object holding exactly 4 raw bytes. -/
structure ChunkType where
  b0 : Nat
  b1 : Nat
  b2 : Nat
  b3 : Nat
deriving DecidableEq, Repr

/-- Modelled from the spec: `bytes()` returns the 4 raw bytes. -/
def ChunkType.bytes (t : ChunkType) : List Nat :=
  [t.b0, t.b1, t.b2, t.b3]

/-- Modelled from the spec: construction from a 4-byte array fails (with
an invalid-chunk-type error) if any byte is not ASCII alphabetic. -/
def ChunkType.tryFrom (a b c d : Nat) : Option ChunkType :=
  if isAsciiAlphabetic a && isAsciiAlphabetic b &&
     isAsciiAlphabetic c && isAsciiAlphabetic d then
    some ⟨a, b, c, d⟩
  else
    none

/-- Modelled from the spec: `parse_str` fails unless the string is
exactly 4 ASCII-alphabetic bytes. The string is its list of byte values. -/
def ChunkType.from_str (s : List Nat) : Option ChunkType :=
  match s with
  | [a, b, c, d] => ChunkType.tryFrom a b c d
  | _ => none

/-- Modelled from the spec: critical iff bit 5 (the 0x20 bit) of byte 0
is clear, i.e. the first byte is uppercase. -/
def ChunkType.is_critical (t : ChunkType) : Bool :=
  t.b0 &&& 32 == 0

/-- Modelled from the spec: public iff bit 5 of byte 1 is clear. -/
def ChunkType.is_public (t : ChunkType) : Bool :=
  t.b1 &&& 32 == 0

/-- Modelled from the spec: reserved bit valid iff bit 5 of byte 2 is
clear, i.e. the third byte is uppercase. -/
def ChunkType.is_reserved_bit_valid (t : ChunkType) : Bool :=
  t.b2 &&& 32 == 0

/-- Modelled from the spec: safe to copy iff bit 5 of byte 3 is set. -/
def ChunkType.is_safe_to_copy (t : ChunkType) : Bool :=
  !(t.b3 &&& 32 == 0)

/-- Modelled from the spec: valid iff all 4 bytes are ASCII alphabetic
and the reserved bit is valid. -/
def ChunkType.is_valid (t : ChunkType) : Bool :=
  isAsciiAlphabetic t.b0 && isAsciiAlphabetic t.b1 &&
  isAsciiAlphabetic t.b2 && isAsciiAlphabetic t.b3 &&
  t.is_reserved_bit_valid

/-- One bit step of the reflected CRC-32 update: shift the register right
by one, folding in the reversed polynomial 0xEDB88320 when the low bit
was set. This is the CRC-32/ISO-HDLC variant used by the `crc` crate's
`CRC_32_ISO_HDLC` (the zlib/gzip CRC). -/
def crcUpdateBit (r : Nat) : Nat :=
  if r % 2 = 1 then (r / 2) ^^^ 0xEDB88320 else r / 2

/-- One byte of the reflected CRC-32 update: xor the byte into the low
8 bits of the register, then run 8 bit steps. -/
def crcUpdateByte (r b : Nat) : Nat :=
  crcUpdateBit^[8] (r ^^^ (b % 256))

/-- CRC-32/ISO-HDLC over a byte list: initial value 0xFFFFFFFF, reflected
input and output, final xor 0xFFFFFFFF. `Crc(CRC_32_ISO_HDLC)` with
`digest.update` over the list and `digest.finalize()` in `chunk.rs`. -/
def crc32 (data : List Nat) : Nat :=
  (data.foldl crcUpdateByte 0xFFFFFFFF) ^^^ 0xFFFFFFFF

/-- Big-endian interpretation of 4 bytes as a 32-bit value
(`u32::from_be_bytes`); each byte is reduced modulo 256. -/
def u32_from_be_bytes (a b c d : Nat) : Nat :=
  (a % 256) * 16777216 + (b % 256) * 65536 + (c % 256) * 256 + d % 256

/-- The `Chunk` record of `chunk.rs`: a declared length, a chunk type,
the payload bytes, and the stored CRC. -/
structure Chunk where
  length : Nat
  chunk_type : ChunkType
  chunk_data : List Nat
  crc : Nat
deriving DecidableEq, Repr

/-- Errors returned (as `Err`) by `Chunk::try_from` in `chunk.rs`:
the slice-to-array conversion error propagated by the `?` on the
chunk-type read, the invalid-chunk-type error from the chunk-type
constructor, and the invalid-CRC error of the checksum comparison. -/
inductive ChunkError where
  | invalid_slice_length : ChunkError
  | invalid_chunk_type : ChunkError
  | invalid_crc : ChunkError
deriving DecidableEq, Repr

/-- Outcome of running `Chunk::try_from`: a successful chunk, a returned
error, or a process abort from an `unwrap()` on a failed conversion. -/
inductive ParseOutcome where
  | ok : Chunk → ParseOutcome
  | err : ChunkError → ParseOutcome
  | panics : ParseOutcome
deriving DecidableEq, Repr

/-- Whether a parse outcome is a successful chunk. -/
def ParseOutcome.isOk : ParseOutcome → Bool
  | .ok _ => true
  | _ => false

/-- The body of `impl TryFrom for Chunk` in `chunk.rs`. The source
drains one iterator: 4 length bytes collected and converted with
`try_into().unwrap()` (aborts when fewer than 4 bytes exist), 4 type
bytes converted with `try_into()?` (returns the error) then validated by
the chunk-type constructor, `length` payload bytes (taking fewer when
the buffer runs short), and 4 CRC bytes converted with
`try_into().unwrap()` (aborts when fewer than 4 remain). The CRC is
recomputed over the type bytes and the taken payload and compared with
the stored big-endian value. -/
def Chunk.tryFrom (value : List Nat) : ParseOutcome :=
  match value with
  | l0 :: l1 :: l2 :: l3 :: rest1 =>
    let length := u32_from_be_bytes l0 l1 l2 l3
    match rest1 with
    | t0 :: t1 :: t2 :: t3 :: rest2 =>
      match ChunkType.tryFrom t0 t1 t2 t3 with
      | none => .err .invalid_chunk_type
      | some ct =>
        let data := rest2.take length
        let rest3 := rest2.drop length
        match rest3 with
        | c0 :: c1 :: c2 :: c3 :: _ =>
          let original_crc := u32_from_be_bytes c0 c1 c2 c3
          let crc := crc32 ([t0, t1, t2, t3] ++ data)
          if crc = original_crc then
            .ok ⟨length, ct, data, crc⟩
          else
            .err .invalid_crc
        | _ => .panics
    | _ => .err .invalid_slice_length
  | _ => .panics

/-- `Chunk::new` in `chunk.rs`: length is the payload length (the
`try_into().unwrap()` aborts when it exceeds `u32::MAX`, modelled as
`none`), the CRC is computed over the chunk-type bytes then the data. -/
def Chunk.new (chunk_type : ChunkType) (data : List Nat) : Option Chunk :=
  if data.length < 4294967296 then
    some ⟨data.length, chunk_type, data, crc32 (chunk_type.bytes ++ data)⟩
  else
    none

/-- `Chunk::data_as_string` in `chunk.rs`: maps each payload byte to the
character with that code point (`*byte as char`) and always returns Ok. -/
def Chunk.data_as_string (c : Chunk) : Except ChunkError (List Char) :=
  Except.ok (c.chunk_data.map fun b => Char.ofNat b)

/-- Big-endian 4-byte encoding of a 32-bit value (`u32::to_be_bytes`). -/
def u32_to_be_bytes (n : Nat) : List Nat :=
  [n / 16777216 % 256, n / 65536 % 256, n / 256 % 256, n % 256]

/-- `Chunk::as_bytes` in `chunk.rs`: big-endian length, type bytes,
payload, big-endian CRC, chained in that order. -/
def Chunk.as_bytes (c : Chunk) : List Nat :=
  u32_to_be_bytes c.length ++ c.chunk_type.bytes ++ c.chunk_data ++
    u32_to_be_bytes c.crc

/-!
Basic facts about the embedded operations: the CRC register stays below
`2 ^ 32`, the big-endian encode/decode pair round-trips, and running the
parser on a buffer decomposed into its header, payload and CRC fields
reduces to the chunk-type check followed by the checksum comparison.
-/

theorem crcUpdateBit_lt (r : Nat) (h : r < 4294967296) :
    crcUpdateBit r < 4294967296 := by
  unfold crcUpdateBit
  split
  · exact Nat.xor_lt_two_pow (n := 32) (by omega) (by norm_num)
  · omega

theorem crcUpdateBit_iterate_lt (n r : Nat) (h : r < 4294967296) :
    crcUpdateBit^[n] r < 4294967296 := by
  induction n generalizing r with
  | zero => simpa using h
  | succ n ih =>
    rw [Function.iterate_succ_apply]
    exact ih _ (crcUpdateBit_lt r h)

theorem crcUpdateByte_lt (r b : Nat) (h : r < 4294967296) :
    crcUpdateByte r b < 4294967296 := by
  unfold crcUpdateByte
  exact crcUpdateBit_iterate_lt 8 _
    (Nat.xor_lt_two_pow (n := 32) h (by omega))

theorem foldl_crcUpdateByte_lt (l : List Nat) (r : Nat) (h : r < 4294967296) :
    l.foldl crcUpdateByte r < 4294967296 := by
  induction l generalizing r with
  | nil => simpa using h
  | cons a l ih =>
    rw [List.foldl_cons]
    exact ih _ (crcUpdateByte_lt r a h)

theorem crc32_lt (l : List Nat) : crc32 l < 4294967296 := by
  unfold crc32
  exact Nat.xor_lt_two_pow (n := 32)
    (foldl_crcUpdateByte_lt l _ (by norm_num)) (by norm_num)

theorem u32_from_be_bytes_lt (a b c d : Nat) :
    u32_from_be_bytes a b c d < 4294967296 := by
  unfold u32_from_be_bytes
  omega

theorem u32_be_roundtrip (n : Nat) (h : n < 4294967296) :
    u32_from_be_bytes (n / 16777216 % 256) (n / 65536 % 256)
      (n / 256 % 256) (n % 256) = n := by
  unfold u32_from_be_bytes
  omega

theorem chunkType_tryFrom_some {a b c d : Nat} {t : ChunkType}
    (h : ChunkType.tryFrom a b c d = some t) : t = ⟨a, b, c, d⟩ := by
  unfold ChunkType.tryFrom at h
  split at h
  · exact (Option.some.injEq _ _ ▸ h).symm
  · exact absurd h (by simp)

theorem chunkType_tryFrom_of_alphabetic {a b c d : Nat}
    (h : (isAsciiAlphabetic a && isAsciiAlphabetic b &&
      isAsciiAlphabetic c && isAsciiAlphabetic d) = true) :
    ChunkType.tryFrom a b c d = some ⟨a, b, c, d⟩ := by
  unfold ChunkType.tryFrom
  rw [if_pos h]

/-- Evaluation of the parser on a buffer split into its fields: a 4-byte
length header whose value is the payload length, 4 type bytes, the
payload, 4 CRC bytes, and arbitrary trailing bytes. -/
theorem tryFrom_eval (l0 l1 l2 l3 t0 t1 t2 t3 c0 c1 c2 c3 : Nat)
    (payload extra : List Nat)
    (hlen : payload.length = u32_from_be_bytes l0 l1 l2 l3) :
    Chunk.tryFrom (l0 :: l1 :: l2 :: l3 :: t0 :: t1 :: t2 :: t3 ::
      (payload ++ c0 :: c1 :: c2 :: c3 :: extra)) =
    match ChunkType.tryFrom t0 t1 t2 t3 with
    | none => .err .invalid_chunk_type
    | some ct =>
      if crc32 ([t0, t1, t2, t3] ++ payload) = u32_from_be_bytes c0 c1 c2 c3
      then
        .ok ⟨u32_from_be_bytes l0 l1 l2 l3, ct, payload,
          crc32 ([t0, t1, t2, t3] ++ payload)⟩
      else
        .err .invalid_crc := by
  have htake : (payload ++ c0 :: c1 :: c2 :: c3 :: extra).take
      (u32_from_be_bytes l0 l1 l2 l3) = payload := List.take_left' hlen
  have hdrop : (payload ++ c0 :: c1 :: c2 :: c3 :: extra).drop
      (u32_from_be_bytes l0 l1 l2 l3) = c0 :: c1 :: c2 :: c3 :: extra :=
    List.drop_left' hlen
  unfold Chunk.tryFrom
  simp only [htake, hdrop]

/-!
Claim theorems.
-/

/-- C1: the claim says parsing a buffer shorter than `8 + L + 4` bytes
returns a truncated-input error and never panics. The source instead
reaches an `unwrap()` on a failed slice-to-array conversion and aborts:
with fewer than 4 bytes (first conjunct), with a full header but no
payload or CRC bytes (second conjunct, declared length 1), and with a
declared length of 42 but only 3 payload bytes (third conjunct). -/
theorem tryFrom_truncated_panics :
    Chunk.tryFrom [0, 0, 0] = .panics ∧
    Chunk.tryFrom [0, 0, 0, 1, 82, 117, 83, 116] = .panics ∧
    Chunk.tryFrom [0, 0, 0, 42, 82, 117, 83, 116, 1, 2, 3] = .panics := by
  decide

/-- The byte values of the test payload string of `chunk.rs`,
which reads `This is where your secret message will be!`. -/
def secret_message : List Nat :=
  [84, 104, 105, 115, 32, 105, 115, 32, 119, 104, 101, 114, 101, 32,
   121, 111, 117, 114, 32, 115, 101, 99, 114, 101, 116, 32, 109, 101,
   115, 115, 97, 103, 101, 32, 119, 105, 108, 108, 32, 98, 101, 33]

/-- C5 counterexample: the claim says the secret-message payload is 44
bytes and `Chunk::new` with type `RuSt` gives `length = 44`; in fact the
payload has 42 bytes and the constructed chunk's length is 42, so the
length is not 44. -/
theorem new_secret_message_length_ne_44 :
    Option.map Chunk.length (Chunk.new ⟨82, 117, 83, 116⟩ secret_message) ≠
      some 44 := by
  decide

set_option maxRecDepth 40000 in
/-- C5 amended: `Chunk::new` on type `RuSt` and the secret-message
payload produces `length = 42`, the payload's actual byte count. -/
theorem new_secret_message_length_42 :
    Option.map Chunk.length (Chunk.new ⟨82, 117, 83, 116⟩ secret_message) =
      some 42 ∧ secret_message.length = 42 := by
  decide

/-- C8: for every chunk type and payload shorter than `2 ^ 32` bytes,
`Chunk::new` succeeds and the chunk's length is the payload byte
count. -/
theorem new_length_eq_payload_length (t : ChunkType) (d : List Nat)
    (hd : d.length < 4294967296) :
    Option.map Chunk.length (Chunk.new t d) = some d.length := by
  unfold Chunk.new
  rw [if_pos hd]
  rfl

/-- C8 witness: instantiation at a concrete chunk type and payload. -/
theorem new_length_eq_payload_length_witness :
    Option.map Chunk.length (Chunk.new ⟨65, 98, 67, 100⟩ [7, 8, 9]) =
      some 3 :=
  new_length_eq_payload_length ⟨65, 98, 67, 100⟩ [7, 8, 9] (by decide)

/-- C6: serialization layout. For every chunk whose declared length is
its payload byte count, the serialized bytes decompose as the 4-byte
big-endian length, then the 4 type bytes, then the payload, then the
4-byte big-endian CRC, for a total of `8 + length + 4` bytes. -/
theorem as_bytes_layout (c : Chunk) (hlen : c.length = c.chunk_data.length) :
    c.as_bytes.take 4 = u32_to_be_bytes c.length ∧
    (c.as_bytes.drop 4).take 4 = c.chunk_type.bytes ∧
    (c.as_bytes.drop 8).take c.chunk_data.length = c.chunk_data ∧
    c.as_bytes.drop (8 + c.chunk_data.length) = u32_to_be_bytes c.crc ∧
    c.as_bytes.length = 8 + c.length + 4 := by
  refine ⟨?_, ?_, ?_, ?_, ?_⟩
  · rw [Chunk.as_bytes, List.append_assoc, List.append_assoc]
    exact List.take_left' (by simp [u32_to_be_bytes])
  · rw [Chunk.as_bytes, List.append_assoc, List.append_assoc,
      List.drop_left' (by simp [u32_to_be_bytes] : _ = 4)]
    exact List.take_left' (by simp [ChunkType.bytes])
  · rw [Chunk.as_bytes,
      List.append_assoc (u32_to_be_bytes c.length ++ c.chunk_type.bytes)
        c.chunk_data (u32_to_be_bytes c.crc),
      List.drop_left' (by simp [u32_to_be_bytes, ChunkType.bytes] : _ = 8)]
    exact List.take_left c.chunk_data (u32_to_be_bytes c.crc)
  · exact List.drop_left'
      (by simp [u32_to_be_bytes, ChunkType.bytes]; omega)
  · simp [Chunk.as_bytes, u32_to_be_bytes, ChunkType.bytes, hlen]
    omega

/-- Concrete chunk used to instantiate the serialization-layout
theorem. -/
def chunk_layout_example : Chunk :=
  ⟨1, ⟨65, 66, 67, 68⟩, [9], 7⟩

/-- C6 witness: instantiation of the layout theorem at a concrete
chunk. -/
theorem as_bytes_layout_witness :
    chunk_layout_example.as_bytes.take 4 =
      u32_to_be_bytes chunk_layout_example.length ∧
    (chunk_layout_example.as_bytes.drop 4).take 4 =
      chunk_layout_example.chunk_type.bytes ∧
    (chunk_layout_example.as_bytes.drop 8).take
      chunk_layout_example.chunk_data.length =
      chunk_layout_example.chunk_data ∧
    chunk_layout_example.as_bytes.drop
      (8 + chunk_layout_example.chunk_data.length) =
      u32_to_be_bytes chunk_layout_example.crc ∧
    chunk_layout_example.as_bytes.length =
      8 + chunk_layout_example.length + 4 :=
  as_bytes_layout chunk_layout_example (by decide)

theorem char_toNat_ofNat (b : Nat) (h : b < 256) :
    (Char.ofNat b).toNat = b := by
  have hv : b.isValidChar := Or.inl (by omega)
  simp [Char.ofNat, hv, Char.toNat, Char.ofNatAux, UInt32.toNat,
    BitVec.toNat_ofNatLt]

theorem map_char_roundtrip (l : List Nat) (h : ∀ b ∈ l, b < 256) :
    l.map (fun b => (Char.ofNat b).toNat) = l := by
  induction l with
  | nil => rfl
  | cons a l ih =>
    rw [List.map_cons, char_toNat_ofNat a (h a (by simp)),
      ih (fun b hb => h b (by simp [hb]))]

/-- C7: for every chunk whose payload entries are byte values,
`data_as_string` returns Ok with one character per payload byte, each
character's code point being that byte's value. -/
theorem data_as_string_total (c : Chunk)
    (hb : ∀ b ∈ c.chunk_data, b < 256) :
    c.data_as_string = Except.ok (c.chunk_data.map fun b => Char.ofNat b) ∧
    (c.chunk_data.map fun b => Char.ofNat b).map Char.toNat =
      c.chunk_data ∧
    (c.chunk_data.map fun b => Char.ofNat b).length =
      c.chunk_data.length := by
  refine ⟨rfl, ?_, by simp⟩
  rw [List.map_map]
  exact map_char_roundtrip c.chunk_data hb

/-- Concrete chunk used to instantiate the data-as-string theorem; its
payload holds the extreme byte values 0 and 255. -/
def chunk_string_example : Chunk :=
  ⟨2, ⟨82, 117, 83, 116⟩, [0, 255], 0⟩

/-- C7 witness: instantiation at a chunk whose payload holds byte
values 0 and 255. -/
theorem data_as_string_total_witness :
    chunk_string_example.data_as_string =
      Except.ok (chunk_string_example.chunk_data.map fun b =>
        Char.ofNat b) ∧
    (chunk_string_example.chunk_data.map fun b =>
      Char.ofNat b).map Char.toNat = chunk_string_example.chunk_data ∧
    (chunk_string_example.chunk_data.map fun b => Char.ofNat b).length =
      chunk_string_example.chunk_data.length :=
  data_as_string_total chunk_string_example (by decide)

/-- C9 counterexample: the claim says the type built from `RuSt` is not
safe to copy, but its fourth byte `t` (116) is lowercase, so bit 5 is
set and, by the spec's own flag decoding, the type is safe to copy. -/
theorem ruSt_is_safe_to_copy :
    ChunkType.from_str [82, 117, 83, 116] = some ⟨82, 117, 83, 116⟩ ∧
    ChunkType.is_safe_to_copy ⟨82, 117, 83, 116⟩ = true := by
  decide

/-- C9 amended (modelled from the spec, since `chunk_type.rs` is absent
from the repository): string construction succeeds exactly for 4-byte
ASCII-alphabetic strings; the reserved bit is valid exactly when byte 2
is uppercase (for alphabetic bytes); `RuSt` constructs and is valid,
critical, not public, and safe to copy; `Rust` constructs but is not
valid; `RU1T` fails to construct. -/
theorem chunk_type_validity :
    (∀ s : List Nat, (ChunkType.from_str s).isSome = true ↔
      (s.length = 4 ∧ ∀ b ∈ s, isAsciiAlphabetic b = true)) ∧
    (∀ t : ChunkType, isAsciiAlphabetic t.b2 = true →
      (t.is_reserved_bit_valid = true ↔ (65 ≤ t.b2 ∧ t.b2 ≤ 90))) ∧
    (ChunkType.from_str [82, 117, 83, 116] = some ⟨82, 117, 83, 116⟩ ∧
      ChunkType.is_valid ⟨82, 117, 83, 116⟩ = true ∧
      ChunkType.is_critical ⟨82, 117, 83, 116⟩ = true ∧
      ChunkType.is_public ⟨82, 117, 83, 116⟩ = false ∧
      ChunkType.is_safe_to_copy ⟨82, 117, 83, 116⟩ = true) ∧
    (ChunkType.from_str [82, 117, 115, 116] = some ⟨82, 117, 115, 116⟩ ∧
      ChunkType.is_valid ⟨82, 117, 115, 116⟩ = false) ∧
    ChunkType.from_str [82, 85, 49, 84] = none := by
  refine ⟨?_, ?_, by decide, by decide, by decide⟩
  · intro s
    rcases s with _ | ⟨a, _ | ⟨b, _ | ⟨c, _ | ⟨d, _ | ⟨e, tl⟩⟩⟩⟩⟩ <;>
      simp [ChunkType.from_str, ChunkType.tryFrom, and_assoc]
  · intro t h
    obtain ⟨b0, b1, b2, b3⟩ := t
    simp only [ChunkType.is_reserved_bit_valid]
    have hd : (65 ≤ b2 ∧ b2 ≤ 90) ∨ (97 ≤ b2 ∧ b2 ≤ 122) := by
      simpa [isAsciiAlphabetic, Nat.ble_eq, Bool.or_eq_true,
        Bool.and_eq_true] using h
    have h1 : 65 ≤ b2 := by omega
    have h2 : b2 ≤ 122 := by omega
    interval_cases b2 <;> first
      | decide
      | exact absurd hd (by decide)

/-- C9 witness: instantiation of the construction rule at the string
`RuSt` and of the reserved-bit rule at its chunk type. -/
theorem chunk_type_validity_witness :
    ((ChunkType.from_str [82, 117, 83, 116]).isSome = true ↔
      (([82, 117, 83, 116] : List Nat).length = 4 ∧
        ∀ b ∈ ([82, 117, 83, 116] : List Nat),
          isAsciiAlphabetic b = true)) ∧
    (isAsciiAlphabetic (83 : Nat) = true ∧
      (ChunkType.is_reserved_bit_valid ⟨82, 117, 83, 116⟩ = true ↔
        (65 ≤ (83 : Nat) ∧ (83 : Nat) ≤ 90))) :=
  ⟨chunk_type_validity.1 [82, 117, 83, 116],
    ⟨by decide, chunk_type_validity.2.1 ⟨82, 117, 83, 116⟩ (by decide)⟩⟩

/-- C4: every chunk produced by `Chunk::new` or by a successful
`Chunk::try_from` carries a CRC equal to the CRC-32/ISO-HDLC checksum of
its chunk-type bytes followed by its payload. -/
theorem chunk_crc_invariant :
    (∀ (t : ChunkType) (d : List Nat) (c : Chunk),
      Chunk.new t d = some c →
      c.crc = crc32 (c.chunk_type.bytes ++ c.chunk_data)) ∧
    (∀ (value : List Nat) (c : Chunk),
      Chunk.tryFrom value = .ok c →
      c.crc = crc32 (c.chunk_type.bytes ++ c.chunk_data)) := by
  constructor
  · intro t d c h
    unfold Chunk.new at h
    split at h
    · cases h
      rfl
    · exact absurd h (by simp)
  · intro value c h
    rcases value with _ | ⟨l0, _ | ⟨l1, _ | ⟨l2, _ | ⟨l3, _ |
      ⟨t0, _ | ⟨t1, _ | ⟨t2, _ | ⟨t3, rest2⟩⟩⟩⟩⟩⟩⟩⟩ <;>
      simp only [Chunk.tryFrom] at h <;>
      try exact ParseOutcome.noConfusion h
    cases hct : ChunkType.tryFrom t0 t1 t2 t3 with
    | none =>
      rw [hct] at h
      exact ParseOutcome.noConfusion h
    | some ct =>
      rw [hct] at h
      try simp only [] at h
      rcases hr3 : rest2.drop (u32_from_be_bytes l0 l1 l2 l3) with
        _ | ⟨c0, _ | ⟨c1, _ | ⟨c2, _ | ⟨c3, tail⟩⟩⟩⟩ <;>
        rw [hr3] at h <;>
        try simp only [] at h
      · exact ParseOutcome.noConfusion h
      · exact ParseOutcome.noConfusion h
      · exact ParseOutcome.noConfusion h
      · exact ParseOutcome.noConfusion h
      · by_cases hcrc : crc32 ([t0, t1, t2, t3] ++
          List.take (u32_from_be_bytes l0 l1 l2 l3) rest2) =
            u32_from_be_bytes c0 c1 c2 c3
        · rw [if_pos hcrc] at h
          cases h
          cases chunkType_tryFrom_some hct
          rfl
        · rw [if_neg hcrc] at h
          exact ParseOutcome.noConfusion h

/-- Concrete chunk used to instantiate the CRC-invariant theorem. -/
def chunk_crc_example : Chunk :=
  ⟨3, ⟨82, 117, 83, 116⟩, [1, 2, 3], crc32 ([82, 117, 83, 116] ++ [1, 2, 3])⟩

set_option maxRecDepth 40000 in
/-- C4 witness: the invariant instantiated on the chunk built by
`Chunk::new` from type `RuSt` and payload `[1, 2, 3]`. -/
theorem chunk_crc_invariant_witness :
    chunk_crc_example.crc =
      crc32 (chunk_crc_example.chunk_type.bytes ++
        chunk_crc_example.chunk_data) :=
  chunk_crc_invariant.1 ⟨82, 117, 83, 116⟩ [1, 2, 3] chunk_crc_example
    (by decide)

set_option maxRecDepth 8000 in
/-- C2: round trip. If `Chunk::new` on a chunk type with alphabetic
bytes and a payload of representable length produces a chunk, parsing
that chunk's serialization succeeds and returns a chunk with the very
same length, type, payload and CRC. -/
theorem tryFrom_new_roundtrip (t : ChunkType) (d : List Nat) (c : Chunk)
    (ht : (isAsciiAlphabetic t.b0 && isAsciiAlphabetic t.b1 &&
      isAsciiAlphabetic t.b2 && isAsciiAlphabetic t.b3) = true)
    (hnew : Chunk.new t d = some c) :
    Chunk.tryFrom c.as_bytes = .ok c := by
  have hd : d.length < 4294967296 := by
    by_contra hge
    unfold Chunk.new at hnew
    rw [if_neg (by omega)] at hnew
    exact absurd hnew (by simp)
  have hc : c = ⟨d.length, t, d, crc32 (t.bytes ++ d)⟩ := by
    unfold Chunk.new at hnew
    rw [if_pos hd] at hnew
    cases hnew
    rfl
  subst hc
  obtain ⟨t0, t1, t2, t3⟩ := t
  rw [show Chunk.as_bytes
        ⟨d.length, ⟨t0, t1, t2, t3⟩, d,
          crc32 (ChunkType.bytes ⟨t0, t1, t2, t3⟩ ++ d)⟩ =
      (d.length / 16777216 % 256) :: (d.length / 65536 % 256) ::
      (d.length / 256 % 256) :: (d.length % 256) ::
      t0 :: t1 :: t2 :: t3 ::
      (d ++ (crc32 ([t0, t1, t2, t3] ++ d) / 16777216 % 256) ::
        (crc32 ([t0, t1, t2, t3] ++ d) / 65536 % 256) ::
        (crc32 ([t0, t1, t2, t3] ++ d) / 256 % 256) ::
        (crc32 ([t0, t1, t2, t3] ++ d) % 256) :: []) from by
    simp [Chunk.as_bytes, u32_to_be_bytes, ChunkType.bytes]]
  rw [tryFrom_eval _ _ _ _ _ _ _ _ _ _ _ _ d []
    ((u32_be_roundtrip d.length hd).symm)]
  rw [chunkType_tryFrom_of_alphabetic ht]
  rw [u32_be_roundtrip _ (crc32_lt ([t0, t1, t2, t3] ++ d))]
  rw [u32_be_roundtrip d.length hd]
  simp [ChunkType.bytes]

/-- Concrete chunk used to instantiate the round-trip theorem. -/
def chunk_roundtrip_example : Chunk :=
  ⟨2, ⟨82, 117, 83, 116⟩, [5, 6], crc32 ([82, 117, 83, 116] ++ [5, 6])⟩

set_option maxRecDepth 40000 in
/-- C2 witness: parsing the serialization of the chunk built from type
`RuSt` and payload `[5, 6]` returns that same chunk. -/
theorem tryFrom_new_roundtrip_witness :
    Chunk.tryFrom chunk_roundtrip_example.as_bytes =
      .ok chunk_roundtrip_example :=
  tryFrom_new_roundtrip ⟨82, 117, 83, 116⟩ [5, 6] chunk_roundtrip_example
    (by decide) (by decide)

/-- A chunk wire record: 4 length bytes, 4 type bytes, the payload, the
big-endian encoding of a stored CRC value, then trailing bytes. -/
def chunk_buffer (l0 l1 l2 l3 t0 t1 t2 t3 : Nat) (payload : List Nat)
    (crcv : Nat) (extra : List Nat) : List Nat :=
  l0 :: l1 :: l2 :: l3 :: t0 :: t1 :: t2 :: t3 ::
    (payload ++ u32_to_be_bytes crcv ++ extra)

theorem tryFrom_chunk_buffer (l0 l1 l2 l3 t0 t1 t2 t3 crcv : Nat)
    (payload extra : List Nat)
    (ht : (isAsciiAlphabetic t0 && isAsciiAlphabetic t1 &&
      isAsciiAlphabetic t2 && isAsciiAlphabetic t3) = true)
    (hlen : payload.length = u32_from_be_bytes l0 l1 l2 l3)
    (hcrc : crcv < 4294967296) :
    Chunk.tryFrom (chunk_buffer l0 l1 l2 l3 t0 t1 t2 t3 payload crcv extra) =
      if crc32 ([t0, t1, t2, t3] ++ payload) = crcv then
        .ok ⟨u32_from_be_bytes l0 l1 l2 l3, ⟨t0, t1, t2, t3⟩, payload,
          crc32 ([t0, t1, t2, t3] ++ payload)⟩
      else
        .err .invalid_crc := by
  unfold chunk_buffer
  rw [show payload ++ u32_to_be_bytes crcv ++ extra =
      payload ++ (crcv / 16777216 % 256) :: (crcv / 65536 % 256) ::
        (crcv / 256 % 256) :: (crcv % 256) :: extra from by
    simp [u32_to_be_bytes]]
  rw [tryFrom_eval _ _ _ _ _ _ _ _ _ _ _ _ _ _ hlen]
  rw [chunkType_tryFrom_of_alphabetic ht]
  rw [u32_be_roundtrip crcv hcrc]

/-- C3: CRC enforcement. On a buffer holding a full record with an
alphabetic chunk type, parsing succeeds exactly when the recomputed
CRC-32/ISO-HDLC checksum over the type bytes and payload equals the
stored CRC value; on a mismatch it fails with the invalid-CRC error; and
if the stored value matches, storing it with any single bit flipped
makes parsing fail with the invalid-CRC error. -/
theorem tryFrom_crc_enforcement (l0 l1 l2 l3 t0 t1 t2 t3 crcv : Nat)
    (payload extra : List Nat)
    (ht : (isAsciiAlphabetic t0 && isAsciiAlphabetic t1 &&
      isAsciiAlphabetic t2 && isAsciiAlphabetic t3) = true)
    (hlen : payload.length = u32_from_be_bytes l0 l1 l2 l3)
    (hcrc : crcv < 4294967296) :
    ((Chunk.tryFrom
        (chunk_buffer l0 l1 l2 l3 t0 t1 t2 t3 payload crcv extra)).isOk =
          true ↔
      crc32 ([t0, t1, t2, t3] ++ payload) = crcv) ∧
    (crc32 ([t0, t1, t2, t3] ++ payload) ≠ crcv →
      Chunk.tryFrom (chunk_buffer l0 l1 l2 l3 t0 t1 t2 t3 payload crcv
        extra) = .err .invalid_crc) ∧
    (∀ i : Nat, i < 32 → crc32 ([t0, t1, t2, t3] ++ payload) = crcv →
      Chunk.tryFrom (chunk_buffer l0 l1 l2 l3 t0 t1 t2 t3 payload
        (crcv ^^^ 2 ^ i) extra) = .err .invalid_crc) := by
  refine ⟨?_, ?_, ?_⟩
  · rw [tryFrom_chunk_buffer l0 l1 l2 l3 t0 t1 t2 t3 crcv payload extra
      ht hlen hcrc]
    by_cases hc : crc32 ([t0, t1, t2, t3] ++ payload) = crcv
    · rw [if_pos hc]
      simp only [ParseOutcome.isOk, true_iff]
      exact hc
    · rw [if_neg hc]
      simp only [ParseOutcome.isOk, Bool.false_eq_true, false_iff]
      exact hc
  · intro hne
    rw [tryFrom_chunk_buffer l0 l1 l2 l3 t0 t1 t2 t3 crcv payload extra
      ht hlen hcrc]
    rw [if_neg hne]
  · intro i hi heq
    have hpow : (2 : Nat) ^ i < 4294967296 := by
      calc (2 : Nat) ^ i < 2 ^ 32 := Nat.pow_lt_pow_right one_lt_two hi
        _ = 4294967296 := by norm_num
    rw [tryFrom_chunk_buffer l0 l1 l2 l3 t0 t1 t2 t3 (crcv ^^^ 2 ^ i)
      payload extra ht hlen
      (Nat.xor_lt_two_pow (n := 32) hcrc (by omega))]
    rw [if_neg]
    rw [heq]
    intro hbad
    have hcancel : crcv ^^^ (crcv ^^^ 2 ^ i) = 2 ^ i := by
      rw [← Nat.xor_assoc, Nat.xor_self, Nat.zero_xor]
    rw [← hbad, Nat.xor_self] at hcancel
    exact absurd hcancel.symm (by positivity : (0 : Nat) < 2 ^ i).ne'

set_option maxRecDepth 40000 in
/-- C3 witness: instantiation on a full record with type `RuSt` and
payload of two bytes whose stored CRC has its lowest bit flipped. -/
theorem tryFrom_crc_enforcement_witness :
    Chunk.tryFrom (chunk_buffer 0 0 0 2 82 117 83 116 [10, 20]
      (crc32 [82, 117, 83, 116, 10, 20] ^^^ 2 ^ 0) [99]) =
      .err .invalid_crc :=
  (tryFrom_crc_enforcement 0 0 0 2 82 117 83 116
    (crc32 [82, 117, 83, 116, 10, 20]) [10, 20] [99]
    (by decide) (by decide) (by decide)).2.2 0 (by decide) (by decide)

/-- C10: the parser reads exactly one record and ignores trailing input.
If a buffer of exactly `8 + length + 4` bytes parses to a chunk, then
that buffer followed by any extra bytes parses to the very same chunk
(same length, type, payload and CRC). -/
theorem tryFrom_ignores_trailing (value extra : List Nat) (c : Chunk)
    (hok : Chunk.tryFrom value = .ok c)
    (hlen : value.length = 8 + c.length + 4) :
    Chunk.tryFrom (value ++ extra) = .ok c := by
  rcases value with _ | ⟨l0, _ | ⟨l1, _ | ⟨l2, _ | ⟨l3, _ |
    ⟨t0, _ | ⟨t1, _ | ⟨t2, _ | ⟨t3, rest2⟩⟩⟩⟩⟩⟩⟩⟩ <;>
    simp only [Chunk.tryFrom] at hok <;>
    try exact ParseOutcome.noConfusion hok
  cases hct : ChunkType.tryFrom t0 t1 t2 t3 with
  | none =>
    rw [hct] at hok
    exact ParseOutcome.noConfusion hok
  | some ct =>
    rw [hct] at hok
    try simp only [] at hok
    rcases hr3 : rest2.drop (u32_from_be_bytes l0 l1 l2 l3) with
      _ | ⟨c0, _ | ⟨c1, _ | ⟨c2, _ | ⟨c3, tail⟩⟩⟩⟩ <;>
      rw [hr3] at hok <;>
      try simp only [] at hok
    · exact ParseOutcome.noConfusion hok
    · exact ParseOutcome.noConfusion hok
    · exact ParseOutcome.noConfusion hok
    · exact ParseOutcome.noConfusion hok
    · by_cases hcrc : crc32 ([t0, t1, t2, t3] ++
        List.take (u32_from_be_bytes l0 l1 l2 l3) rest2) =
          u32_from_be_bytes c0 c1 c2 c3
      · rw [if_pos hcrc] at hok
        cases hok
        have hr2len : rest2.length = u32_from_be_bytes l0 l1 l2 l3 + 4 := by
          simp at hlen
          omega
        have htklen :
            (rest2.take (u32_from_be_bytes l0 l1 l2 l3)).length =
              u32_from_be_bytes l0 l1 l2 l3 := by
          rw [List.length_take]
          omega
        have htail : tail = [] := by
          have hdl := congrArg List.length hr3
          rw [List.length_drop] at hdl
          simp only [List.length_cons] at hdl
          rw [← List.length_eq_zero]
          omega
        subst htail
        have hsplit : rest2 =
            rest2.take (u32_from_be_bytes l0 l1 l2 l3) ++
              [c0, c1, c2, c3] := by
          conv_lhs => rw [← List.take_append_drop
            (u32_from_be_bytes l0 l1 l2 l3) rest2]
          rw [hr3]
        set p := rest2.take (u32_from_be_bytes l0 l1 l2 l3) with hp
        rw [show (l0 :: l1 :: l2 :: l3 :: t0 :: t1 :: t2 :: t3 :: rest2) ++
            extra =
            l0 :: l1 :: l2 :: l3 :: t0 :: t1 :: t2 :: t3 ::
              (rest2 ++ extra) from by simp]
        rw [hsplit]
        rw [show (p ++ [c0, c1, c2, c3]) ++ extra =
            p ++ c0 :: c1 :: c2 :: c3 :: extra from by simp]
        rw [tryFrom_eval _ _ _ _ _ _ _ _ _ _ _ _ p extra htklen]
        rw [hct]
        try simp only []
        rw [if_pos hcrc]
      · rw [if_neg hcrc] at hok
        exact ParseOutcome.noConfusion hok

/-- A complete 13-byte record (length 1, type `RuSt`, payload `[9]`, its
CRC) used to instantiate the trailing-bytes theorem. -/
def trailing_example_buffer : List Nat :=
  [0, 0, 0, 1, 82, 117, 83, 116, 9] ++
    u32_to_be_bytes (crc32 [82, 117, 83, 116, 9])

/-- The chunk parsed from the 13-byte example record. -/
def chunk_trailing_example : Chunk :=
  ⟨1, ⟨82, 117, 83, 116⟩, [9], crc32 [82, 117, 83, 116, 9]⟩

set_option maxRecDepth 40000 in
/-- C10 witness: appending three extra bytes to the 13-byte record still
parses to the same chunk. -/
theorem tryFrom_ignores_trailing_witness :
    Chunk.tryFrom (trailing_example_buffer ++ [1, 2, 3]) =
      .ok chunk_trailing_example :=
  tryFrom_ignores_trailing trailing_example_buffer [1, 2, 3]
    chunk_trailing_example (by decide) (by decide)

end Pngme
